import Mathlib

/-!
# Verification of the Shor-factoring notebook (N = 15)

Shallow embedding of the classical post-processing in `shor_qpe` from the
repository's Shor's-algorithm notebook, together with the spec's
`estimate_factor` wrapper (bounded retries, `InvalidBase` check), and proofs
of the stated properties.

The quantum part (circuit construction, the Aer simulator, plotting) is
treated as an external oracle that returns one measured bitstring per
attempt, exactly as the spec's §1/§6 prescribe.  All classical arithmetic
(`int(s, 2)`, float division by a power of two, `Fraction.limit_denominator`,
`gcd`, integer powers) is embedded exactly.
-/

namespace ShorQPE

/-- Python's `int(s, 2)`: interpret a bitstring, most significant bit first, as a
natural number.  In the notebook the string is the single key of the
one-shot counts dictionary. -/
def bitsToNat (bs : List Bool) : Nat :=
  bs.foldl (fun acc b => 2 * acc + (if b then 1 else 0)) 0

/-- Decides `|p1/q1 − n/d| ≤ |p2/q2 − n/d|` for fractions with positive
denominators, by cross-multiplying the exact differences:
`|p1·d − n·q1| · q2 ≤ |p2·d − n·q2| · q1` (`Nat.dist` is the absolute
difference).  This is the comparison
`abs(bound2 - self) <= abs(bound1 - self)` that CPython's
`Fraction.limit_denominator` performs on exact rationals (multiplied through
by the positive quantity `q1·q2·d`). -/
def closerOrEq (n d p1 q1 p2 q2 : Nat) : Bool :=
  Nat.dist (p1 * d) (n * q1) * q2 ≤ Nat.dist (p2 * d) (n * q2) * q1

/-- The continued-fraction loop of CPython's `Fraction.limit_denominator`
(`fractions.py`), specialized to nonnegative fractions (every phase in this
program lies in `[0, 1)`), so Python's floor `//` and `%` coincide with
`Nat` division.  `(n, d)` is the running numerator/denominator pair,
`pq0 = (p0, q0)` and `pq1 = (p1, q1)` the previous and current convergents;
the result is the tuple `(p0, q0, p1, q1)` at the `break`.

`fuel` makes the recursion structural; the initial call passes `fuel = d`,
which suffices because `d` strictly decreases (Euclid), so `fuel = 0` forces
`d = 0` and then both exits agree.  The `d = 0` exit itself is unreachable
from `limit_denominator` (the loop breaks on `q2 > maxd` no later than the
final convergent, whose denominator is `x.den > maxd`), matching Python,
where `d` never reaches `0` either. -/
def ldLoop (maxd : Nat) : Nat → Nat → Nat → Nat × Nat → Nat × Nat →
    (Nat × Nat) × (Nat × Nat)
  | 0, _, _, pq0, pq1 => (pq0, pq1)
  | fuel + 1, n, d, pq0, pq1 =>
    if d = 0 then (pq0, pq1)
    else
      let a := n / d
      let q2 := pq0.2 + a * pq1.2
      if maxd < q2 then (pq0, pq1)
      else ldLoop maxd fuel d (n % d) pq1 (pq0.1 + a * pq1.1, q2)

/-- CPython's `Fraction.limit_denominator(max_denominator)`: the closest
fraction to `x` with denominator at most `maxd`, following `fractions.py`
line by line for the nonnegative inputs this program produces.  (Python's
`ValueError` on `max_denominator < 1` is not modelled; the notebook always
calls it with the literal bound 15.)  After the loop,
`k = (max_denominator - q0) // q1`, and the closer of
`bound2 = p1/q1` and `bound1 = (p0+k·p1)/(q0+k·q1)` is returned, ties going
to `bound2`. -/
def limit_denominator (x : Rat) (maxd : Nat) : Rat :=
  if x.den ≤ maxd then x
  else
    let n := x.num.toNat
    let d := x.den
    let st := ldLoop maxd d n d (0, 1) (1, 0)
    let p0 := st.1.1
    let q0 := st.1.2
    let p1 := st.2.1
    let q1 := st.2.2
    let k := (maxd - q0) / q1
    if closerOrEq n d p1 q1 (p0 + k * p1) (q0 + k * q1) then mkRat p1 q1
    else mkRat (p0 + k * p1) (q0 + k * q1)

/-- One iteration of the `while gcheck` body of `shor_qpe` (the classical
part): the oracle's measured bitstring is converted to a decimal value
(`converted_phase`), divided by `2 ** lenth` (`lenth` is the string length;
the float division is exact here, so `Fraction(phase_final)` is exactly this
dyadic rational), approximated by a fraction with denominator at most 15,
and the two gcd guesses are formed with `a ** (r // 2) ∓ 1`.  Returns
`guesses` together with the flag that the `for guess in guesses` loop sets
(`true` iff some guess passes `guess not in [1, N] and N % guess == 0`,
flipping `gcheck`). -/
def shor_attempt (N a : Nat) (sample : List Bool) : List Nat × Bool :=
  let converted_phase := bitsToNat sample
  let lenth := sample.length
  let phase_final : Rat := mkRat converted_phase (2 ^ lenth)
  let r := (limit_denominator phase_final 15).den
  let guesses := [Nat.gcd (a ^ (r / 2) - 1) N, Nat.gcd (a ^ (r / 2) + 1) N]
  (guesses, guesses.any fun guess => !(guess == 1 || guess == N) && N % guess == 0)

/-- The `while gcheck` loop of `shor_qpe`.  The source loops with no bound,
so the embedding is fuel-indexed: `none` models a run that has not
terminated within `fuel` iterations, `some guesses` a run that returned
`guesses`.  `i` indexes the oracle's sample sequence (one single-shot
measurement per iteration). -/
def shor_loop (N a : Nat) (oracle : Nat → List Bool) : Nat → Nat → Option (List Nat)
  | _, 0 => none
  | i, fuel + 1 =>
    let step := shor_attempt N a (oracle i)
    if step.2 then some step.1 else shor_loop N a oracle (i + 1) fuel

/-- The notebook's `shor_qpe(k)`.  The caller's `k` is immediately
overwritten with the literal 12, then `a = 7`, `N = 15`, `m = k - 4 = 8`;
`m` is consumed only by the circuit construction handed to the oracle
(phase-register width), which the embedding abstracts as the oracle. -/
def shor_qpe (k : Nat) (oracle : Nat → List Bool) (fuel : Nat) : Option (List Nat) :=
  let N : Nat := 15
  let k := 12
  let a := 7
  let _m := k - 4
  shor_loop N a oracle 0 fuel

/-- The quantity `|v·q − 2^L·p|`: the distance `|v/2^L − p/q|` scaled by the
positive factor `2^L·q`. -/
def distNum (v L p q : Nat) : Nat :=
  Nat.dist (v * q) (2 ^ L * p)

/-- The scaled distance from `v/2^L` to the closest fraction with
denominator exactly `q`: the minimum of `distNum` over `p ∈ [0, q]`
(for a phase in `[0, 1)` the optimal integer `p` lies in this range). -/
def minDistNum (v L q : Nat) : Nat :=
  (List.range (q + 1)).foldl (fun acc p => min acc (distNum v L p q))
    (distNum v L 0 q)

/-- The spec's "limit denominator" contract, stated from its words: the
denominator `q`, `1 ≤ q ≤ Nb`, of the fraction `p/q` minimizing
`|v/2^L − p/q|`, ties broken by smaller `q` first.  Scaled distances are
compared by cross-multiplication: `dist q < dist q'` iff
`minDistNum q · q' < minDistNum q' · q` (the factor `2^L` cancels). -/
def specBestDen (v L Nb : Nat) : Nat :=
  ((List.range Nb).map (· + 1)).foldl
    (fun best q =>
      if minDistNum v L q * best < minDistNum v L best * q then q else best) 1

/-- Outcome of the spec's `estimate_factor`: a factor pair together with the
number of attempts used, or one of the spec's failure modes. -/
inductive EstimateResult
  | factorPair (g1 g2 : Nat) (attemptsUsed : Nat)
  | noNontrivialFactor
  | invalidBase
deriving DecidableEq

/-- Modelled from the spec: one attempt of `estimate_factor` (§4.1 steps
1–5), absent from the source (the notebook's loop checks neither the parity
of `r` nor anything else beyond its gcd test).  The oracle's `m`-bit sample
is read as an unsigned integer over `2^m`, approximated with denominator
bound `N`; an odd `r`, or both gcds in `{1, N}`, fails the attempt. -/
def estimate_attempt (N a m : Nat) (sample : List Bool) : Option (Nat × Nat) :=
  let v := bitsToNat sample
  let phase : Rat := mkRat v (2 ^ m)
  let r := (limit_denominator phase N).den
  if r % 2 = 1 then none
  else
    let g1 := Nat.gcd (a ^ (r / 2) - 1) N
    let g2 := Nat.gcd (a ^ (r / 2) + 1) N
    if (g1 = 1 ∨ g1 = N) ∧ (g2 = 1 ∨ g2 = N) then none
    else some (g1, g2)

/-- Modelled from the spec: the bounded retry loop of `estimate_factor`,
with `attempt` the 0-based index of the current attempt and `fuel` the
number of attempts remaining out of `max_attempts`. -/
def estimate_go (N a m : Nat) (oracle : Nat → List Bool) : Nat → Nat → EstimateResult
  | _, 0 => .noNontrivialFactor
  | attempt, fuel + 1 =>
    match estimate_attempt N a m (oracle attempt) with
    | some (g1, g2) => .factorPair g1 g2 (attempt + 1)
    | none => estimate_go N a m oracle (attempt + 1) fuel

/-- Step 3 of an attempt in isolation: the period guess `r` obtained from a
measured sample, i.e. the denominator of
`Fraction(converted_phase / 2 ** lenth).limit_denominator(15)`. -/
def periodGuess (sample : List Bool) : Nat :=
  (limit_denominator (mkRat (bitsToNat sample) (2 ^ sample.length)) 15).den

/-- The property of `r` being the multiplicative order of `a` modulo `N`
(the spec's "true order"): the least positive exponent with
`a ^ r ≡ 1 (mod N)`. -/
def isOrder (a N r : Nat) : Prop :=
  0 < r ∧ a ^ r % N = 1 ∧ ∀ t, t < r → 0 < t → a ^ t % N ≠ 1

/-- Modelled from the spec: `estimate_factor(N, a, m, max_attempts)` (§4.1).
The source has no such wrapper — the notebook's `shor_qpe` loops without a
bound and never validates `a` — so the `InvalidBase` precondition check and
the `max_attempts` budget follow the spec's words: `gcd(a, N) ≠ 1` is
rejected before any sampling, and after `max_attempts` failed attempts the
result is `NoNontrivialFactor`. -/
def estimate_factor (N a m max_attempts : Nat) (oracle : Nat → List Bool) :
    EstimateResult :=
  if Nat.gcd a N ≠ 1 then .invalidBase
  else estimate_go N a m oracle 0 max_attempts

end ShorQPE

namespace ShorQPE

/-! ## Helper lemmas -/

theorem limit_denominator_of_den_le (x : Rat) (maxd : Nat) (h : x.den ≤ maxd) :
    limit_denominator x maxd = x := by
  unfold limit_denominator
  rw [if_pos h]

theorem shor_attempt_fst (N a : Nat) (sample : List Bool) :
    (shor_attempt N a sample).1 =
      [Nat.gcd (a ^ (periodGuess sample / 2) - 1) N,
       Nat.gcd (a ^ (periodGuess sample / 2) + 1) N] := rfl

theorem shor_attempt_snd (N a : Nat) (sample : List Bool) :
    (shor_attempt N a sample).2 =
      (shor_attempt N a sample).1.any
        fun guess => !(guess == 1 || guess == N) && N % guess == 0 := rfl

theorem shor_attempt_guesses_dvd (N a : Nat) (sample : List Bool) :
    ∀ g ∈ (shor_attempt N a sample).1, g ∣ N := by
  intro g hg
  rw [shor_attempt_fst] at hg
  rcases List.mem_pair.mp hg with h | h <;> subst h <;> exact Nat.gcd_dvd_right _ _

theorem shor_attempt_guesses_pos (N a : Nat) (hN : 0 < N) (sample : List Bool) :
    ∀ g ∈ (shor_attempt N a sample).1, 0 < g := by
  intro g hg
  rw [shor_attempt_fst] at hg
  rcases List.mem_pair.mp hg with h | h <;> subst h <;>
    exact Nat.gcd_pos_of_pos_right _ hN

theorem guessCheck_iff (N g : Nat) :
    ((!(g == 1 || g == N) && N % g == 0) = true) ↔
      g ≠ 1 ∧ g ≠ N ∧ N % g = 0 := by
  simp [and_assoc, not_or]

theorem shor_attempt_found_iff (N a : Nat) (sample : List Bool) :
    (shor_attempt N a sample).2 = true ↔
      ∃ g ∈ (shor_attempt N a sample).1, g ≠ 1 ∧ g ≠ N ∧ N % g = 0 := by
  rw [shor_attempt_snd, List.any_eq_true]
  constructor
  · rintro ⟨g, hg, hc⟩
    exact ⟨g, hg, (guessCheck_iff N g).mp hc⟩
  · rintro ⟨g, hg, hc⟩
    exact ⟨g, hg, (guessCheck_iff N g).mpr hc⟩

theorem shor_loop_some (N a : Nat) (oracle : Nat → List Bool) :
    ∀ fuel i gs, shor_loop N a oracle i fuel = some gs →
      ∃ j, gs = (shor_attempt N a (oracle j)).1 ∧
        (shor_attempt N a (oracle j)).2 = true := by
  intro fuel
  induction fuel with
  | zero => intro i gs h; simp [shor_loop] at h
  | succ n ih =>
    intro i gs h
    simp only [shor_loop] at h
    split at h
    next hc => cases h; exact ⟨i, rfl, hc⟩
    next hc => exact ih (i + 1) gs h

theorem estimate_go_shape (N a m : Nat) (oracle : Nat → List Bool) :
    ∀ fuel attempt,
      (∃ g1 g2 att,
          estimate_go N a m oracle attempt fuel = .factorPair g1 g2 att ∧
            attempt < att ∧ att ≤ attempt + fuel) ∨
        estimate_go N a m oracle attempt fuel = .noNontrivialFactor := by
  intro fuel
  induction fuel with
  | zero => intro attempt; right; rfl
  | succ n ih =>
    intro attempt
    simp only [estimate_go]
    cases hA : estimate_attempt N a m (oracle attempt) with
    | some p =>
      obtain ⟨g1, g2⟩ := p
      left
      exact ⟨g1, g2, attempt + 1, rfl, Nat.lt_succ_self _, by omega⟩
    | none =>
      rcases ih (attempt + 1) with ⟨g1, g2, att, hEq, hlt, hle⟩ | hEq
      · left; exact ⟨g1, g2, att, hEq, by omega, by omega⟩
      · right; exact hEq

theorem coprime_of_pow_mod_eq_one (a r : Nat) (hr : 0 < r)
    (h : a ^ r % 15 = 1) : Nat.gcd a 15 = 1 := by
  have h1 : Nat.gcd (a ^ r) 15 = 1 := by
    rw [Nat.gcd_comm, Nat.gcd_rec, h]
    exact Nat.gcd_one_left 15
  exact (Nat.coprime_pow_left_iff hr a 15).mp h1

theorem units_pow_four :
    ∀ a : Nat, a < 15 → Nat.gcd a 15 = 1 → a ^ 4 % 15 = 1 := by decide

theorem order_cases :
    ∀ a : Nat, a < 15 → ∀ r : Nat, r < 5 → 0 < r → a ^ r % 15 = 1 →
      (∀ t, t < r → 0 < t → a ^ t % 15 ≠ 1) → r = 1 ∨ r = 2 ∨ r = 4 := by
  have h : ∀ (a : Fin 15) (r : Fin 5), 0 < (r : Nat) →
      (a : Nat) ^ (r : Nat) % 15 = 1 →
      (∀ t, t < (r : Nat) → 0 < t → (a : Nat) ^ t % 15 ≠ 1) →
      (r : Nat) = 1 ∨ (r : Nat) = 2 ∨ (r : Nat) = 4 := by decide
  intro a ha r hr
  exact h ⟨a, ha⟩ ⟨r, hr⟩

/-! ## Claim theorems -/

/-- **C1**: for every positive `max_attempts` (and every base passing the
coprimality precondition, so that the `InvalidBase` branch is not taken),
the spec's factor-estimation procedure terminates: its outcome is either a
factor pair, produced on some attempt numbered between 1 and
`max_attempts`, or the explicit `NoNontrivialFactor` failure — for every
sequence of oracle samples. -/
theorem estimate_factor_terminates (N a m max_attempts : Nat)
    (oracle : Nat → List Bool) (hmax : 0 < max_attempts)
    (hg : Nat.gcd a N = 1) :
    (∃ g1 g2 att,
        estimate_factor N a m max_attempts oracle = .factorPair g1 g2 att ∧
          1 ≤ att ∧ att ≤ max_attempts) ∨
      estimate_factor N a m max_attempts oracle = .noNontrivialFactor := by
  unfold estimate_factor
  rw [if_neg (not_ne_iff.mpr hg)]
  simpa using estimate_go_shape N a m oracle max_attempts 0

/-- Witness for `estimate_factor_terminates`: `N = 15`, `a = 7`, `m = 8`,
three attempts of an all-zeros oracle (every attempt yields `r = 1` and
fails, so the run ends in `NoNontrivialFactor`). -/
theorem estimate_factor_terminates_witness :
    (0 < 3 ∧ Nat.gcd 7 15 = 1) ∧
      ((∃ g1 g2 att,
          estimate_factor 15 7 8 3 (fun _ => List.replicate 8 false) =
            .factorPair g1 g2 att ∧ 1 ≤ att ∧ att ≤ 3) ∨
        estimate_factor 15 7 8 3 (fun _ => List.replicate 8 false) =
          .noNontrivialFactor) :=
  ⟨⟨by decide, by decide⟩,
    estimate_factor_terminates 15 7 8 3 _ (by decide) (by decide)⟩

/-- **C2, counterexample**: with the 8-bit sample `01010101`
(phase `85/256 ≈ 0.332`), step 3 yields the odd period guess `r = 3`, yet
the attempt succeeds — `gcd(7^(3//2) − 1, 15) = gcd(6, 15) = 3` passes the
check — and `shor_qpe` returns the pair `[3, 1]` on that very attempt
instead of proceeding to the next one.  The source never tests the parity
of `r`. -/
theorem odd_period_guess_attempt_succeeds :
    periodGuess [false, true, false, true, false, true, false, true] = 3 ∧
      3 % 2 = 1 ∧
      shor_attempt 15 7 [false, true, false, true, false, true, false, true] =
        ([3, 1], true) ∧
      shor_qpe 12 (fun _ => [false, true, false, true, false, true, false, true]) 1 =
        some [3, 1] := by decide

/-- **C2 (amended)**: an attempt returns a factor pair exactly when at
least one of `gcd(a^(r // 2) − 1, N)`, `gcd(a^(r // 2) + 1, N)` (floor
division; `N = 15`, `a = 7`) lies outside `{1, N}` — the parity of `r` is
never consulted, so an attempt with odd `r` can also produce a factor
pair. -/
theorem shor_attempt_success_iff_gcd_nontrivial (sample : List Bool) :
    (shor_attempt 15 7 sample).2 = true ↔
      ((Nat.gcd (7 ^ (periodGuess sample / 2) - 1) 15 ≠ 1 ∧
        Nat.gcd (7 ^ (periodGuess sample / 2) - 1) 15 ≠ 15) ∨
       (Nat.gcd (7 ^ (periodGuess sample / 2) + 1) 15 ≠ 1 ∧
        Nat.gcd (7 ^ (periodGuess sample / 2) + 1) 15 ≠ 15)) := by
  rw [shor_attempt_found_iff]
  constructor
  · rintro ⟨g, hg, h1, h15, hmod⟩
    rw [shor_attempt_fst] at hg
    rcases List.mem_pair.mp hg with rfl | rfl
    · exact Or.inl ⟨h1, h15⟩
    · exact Or.inr ⟨h1, h15⟩
  · intro h
    rcases h with ⟨h1, h15⟩ | ⟨h1, h15⟩
    · refine ⟨_, ?_, h1, h15, Nat.mod_eq_zero_of_dvd (Nat.gcd_dvd_right _ _)⟩
      rw [shor_attempt_fst]
      exact List.mem_cons_self _ _
    · refine ⟨_, ?_, h1, h15, Nat.mod_eq_zero_of_dvd (Nat.gcd_dvd_right _ _)⟩
      rw [shor_attempt_fst]
      exact List.mem_cons_of_mem _ (List.mem_cons_self _ _)

/-- **C3**: whenever `gcd(a, N) ≠ 1`, `estimate_factor` reports
`InvalidBase`, and the outcome is independent of the oracle (no sample is
consulted); the concrete `N = 15`, `a = 5` case is the witness. -/
theorem estimate_factor_invalid_base (N a m max_attempts : Nat)
    (oracle : Nat → List Bool) (hg : Nat.gcd a N ≠ 1) :
    estimate_factor N a m max_attempts oracle = .invalidBase ∧
      ∀ oracle2, estimate_factor N a m max_attempts oracle =
        estimate_factor N a m max_attempts oracle2 := by
  constructor
  · unfold estimate_factor
    rw [if_pos hg]
  · intro o2
    unfold estimate_factor
    rw [if_pos hg, if_pos hg]

/-- Witness for `estimate_factor_invalid_base`: `N = 15`, `a = 5`
(`gcd(5, 15) = 5 ≠ 1`). -/
theorem estimate_factor_invalid_base_witness :
    Nat.gcd 5 15 ≠ 1 ∧
      (estimate_factor 15 5 8 3 (fun _ => List.replicate 8 true) = .invalidBase ∧
        ∀ oracle2, estimate_factor 15 5 8 3 (fun _ => List.replicate 8 true) =
          estimate_factor 15 5 8 3 oracle2) :=
  ⟨by decide, estimate_factor_invalid_base 15 5 8 3 _ (by decide)⟩

/-- **C4**: whenever `shor_qpe` returns a list of guesses, every member
other than 1 and 15 is a genuine divisor of `N = 15`, and at least one
such non-trivial member exists. -/
theorem shor_qpe_returns_genuine_factors (k fuel : Nat)
    (oracle : Nat → List Bool) (gs : List Nat)
    (h : shor_qpe k oracle fuel = some gs) :
    (∀ g ∈ gs, g ≠ 1 → g ≠ 15 → g ∣ 15) ∧
      ∃ g ∈ gs, g ≠ 1 ∧ g ≠ 15 ∧ g ∣ 15 := by
  obtain ⟨j, rfl, hfound⟩ := shor_loop_some 15 7 oracle fuel 0 gs h
  refine ⟨fun g hg _ _ => shor_attempt_guesses_dvd 15 7 _ g hg, ?_⟩
  obtain ⟨g, hg, h1, h15, hmod⟩ := (shor_attempt_found_iff 15 7 _).mp hfound
  exact ⟨g, hg, h1, h15, Nat.dvd_of_mod_eq_zero hmod⟩

/-- Witness for `shor_qpe_returns_genuine_factors`: a constant oracle
answering `0100` makes `shor_qpe` return `[3, 5]` on the first attempt. -/
theorem shor_qpe_returns_genuine_factors_witness :
    shor_qpe 12 (fun _ => [false, true, false, false]) 1 = some [3, 5] ∧
      ((∀ g ∈ [3, 5], g ≠ 1 → g ≠ 15 → g ∣ 15) ∧
        ∃ g ∈ [3, 5], g ≠ 1 ∧ g ≠ 15 ∧ g ∣ 15) :=
  ⟨by decide,
    shor_qpe_returns_genuine_factors 12 1 (fun _ => [false, true, false, false])
      [3, 5] (by decide)⟩

set_option maxRecDepth 4000 in
/-- **C5**: for every phase value the program can sample (an 8-bit string,
so `v/2^8 ∈ [0, 1)`), the period guess of step 3 — the denominator of
`Fraction(v / 2**8).limit_denominator(15)` — equals the denominator
`specBestDen` of the spec's limit-denominator contract (the `p/q`,
`1 ≤ q ≤ 15`, minimizing `|phase − p/q|`, ties to smaller `q`), and
`1 ≤ r ≤ 15` always holds. -/
theorem limit_denominator_matches_spec_contract (v : Nat) (hv : v < 2 ^ 8) :
    (limit_denominator (mkRat v (2 ^ 8)) 15).den = specBestDen v 8 15 ∧
      1 ≤ (limit_denominator (mkRat v (2 ^ 8)) 15).den ∧
      (limit_denominator (mkRat v (2 ^ 8)) 15).den ≤ 15 := by
  revert v
  decide

/-- Witness for `limit_denominator_matches_spec_contract` at the sample
value 85 (phase `85/256`, period guess 3). -/
theorem limit_denominator_matches_spec_contract_witness :
    85 < 2 ^ 8 ∧
      ((limit_denominator (mkRat 85 (2 ^ 8)) 15).den = specBestDen 85 8 15 ∧
        1 ≤ (limit_denominator (mkRat 85 (2 ^ 8)) 15).den ∧
        (limit_denominator (mkRat 85 (2 ^ 8)) 15).den ≤ 15) :=
  ⟨by decide, limit_denominator_matches_spec_contract 85 (by decide)⟩

/-- **C6**: the concrete scenario `N = 15`, `a = 7`, oracle sample `0100`
(4 bits, phase `4/16 = 0.25`): best rational approximation `1/4`, so
`r = 4`, and the attempt returns the factor pair
`(gcd(7^2 − 1, 15), gcd(7^2 + 1, 15)) = (3, 5)`, both non-trivial, as the
result of `shor_qpe` on that attempt. -/
theorem scenario_sample_0100_yields_3_5 :
    limit_denominator (mkRat (bitsToNat [false, true, false, false]) (2 ^ 4)) 15 =
        mkRat 1 4 ∧
      periodGuess [false, true, false, false] = 4 ∧
      Nat.gcd (7 ^ 2 - 1) 15 = 3 ∧ Nat.gcd (7 ^ 2 + 1) 15 = 5 ∧
      shor_attempt 15 7 [false, true, false, false] = ([3, 5], true) ∧
      shor_qpe 12 (fun _ => [false, true, false, false]) 1 = some [3, 5] := by
  decide

/-- **C7**: round-trip through the rational-approximation step.  If `r` is
the true multiplicative order of `a` modulo 15 (the modulus the code
fixes), `kk` is coprime to `r` with `kk < r` (so the phase lies in
`[0, 1)`), and `m ≥ 2` bits are used, then the phase
`⌊2^m · kk / r⌋ / 2^m` is recovered with denominator exactly `r`. -/
theorem roundtrip_recovers_order (a r kk m : Nat) (ha : a < 15)
    (hord : isOrder a 15 r) (hk : Nat.gcd kk r = 1) (hkr : kk < r)
    (hm : 2 ≤ m) :
    (limit_denominator (mkRat ((2 ^ m * kk / r : Nat)) (2 ^ m)) 15).den = r := by
  obtain ⟨hr0, hr1, hmin⟩ := hord
  have hco : Nat.gcd a 15 = 1 := coprime_of_pow_mod_eq_one a r hr0 hr1
  have h4 : a ^ 4 % 15 = 1 := units_pow_four a ha hco
  have hr4 : r ≤ 4 := by
    by_contra hgt
    exact hmin 4 (by omega) (by omega) h4
  have hcases : r = 1 ∨ r = 2 ∨ r = 4 :=
    order_cases a ha r (by omega) hr0 hr1 hmin
  obtain ⟨m', rfl⟩ : ∃ m', m = 2 + m' := ⟨m - 2, by omega⟩
  have hcpos : 0 < 2 ^ m' := pow_pos (by norm_num) m'
  have hpow : 2 ^ (2 + m') = 2 ^ m' * 4 := by
    rw [pow_add]
    ring
  rcases hcases with rfl | rfl | rfl
  · -- r = 1, hence kk = 0 and the phase is exactly 0
    interval_cases kk
    simp only [Nat.mul_zero, Nat.zero_div, Nat.cast_zero, Rat.zero_mkRat]
    rw [limit_denominator_of_den_le]
    · decide
    · decide
  · -- r = 2: kk = 1 (kk = 0 is not coprime to 2), phase is exactly 1/2
    interval_cases kk
    · exact absurd hk (by decide)
    · rw [hpow]
      have e1 : 2 ^ m' * 4 * 1 / 2 = 2 ^ m' * 2 := by omega
      rw [e1]
      have e2 : ((2 ^ m' * 2 : Nat) : Int) = ((2 ^ m' * 2 : Nat) : Int) * 1 := by
        ring
      have e3 : 2 ^ m' * 4 = 2 ^ m' * 2 * 2 := by ring
      rw [e2, e3, Rat.mkRat_mul_left]
      · rw [limit_denominator_of_den_le]
        · decide
        · decide
      · positivity
  · -- r = 4: kk = 1 or kk = 3, phase is exactly kk/4
    interval_cases kk
    · exact absurd hk (by decide)
    · rw [hpow]
      have e1 : 2 ^ m' * 4 * 1 / 4 = 2 ^ m' := by omega
      rw [e1]
      have e2 : ((2 ^ m' : Nat) : Int) = ((2 ^ m' : Nat) : Int) * 1 := by ring
      rw [e2, Rat.mkRat_mul_left]
      · rw [limit_denominator_of_den_le]
        · decide
        · decide
      · positivity
    · exact absurd hk (by decide)
    · rw [hpow]
      have e1 : 2 ^ m' * 4 * 3 / 4 = 2 ^ m' * 3 := by omega
      rw [e1]
      have e2 : ((2 ^ m' * 3 : Nat) : Int) = ((2 ^ m' : Nat) : Int) * 3 := by
        push_cast
        ring
      rw [e2, Rat.mkRat_mul_left]
      · rw [limit_denominator_of_den_le]
        · decide
        · decide
      · positivity

/-- Witness for `roundtrip_recovers_order`: `a = 7` has order 4 modulo 15,
and with `kk = 1`, `m = 8` the phase `64/256` is recovered as `1/4`. -/
theorem roundtrip_recovers_order_witness :
    (7 < 15 ∧ isOrder 7 15 4 ∧ Nat.gcd 1 4 = 1 ∧ 1 < 4 ∧ 2 ≤ 8) ∧
      (limit_denominator (mkRat ((2 ^ 8 * 1 / 4 : Nat)) (2 ^ 8)) 15).den = 4 :=
  ⟨⟨by decide, ⟨by decide, by decide, by decide⟩, by decide, by decide, by decide⟩,
    roundtrip_recovers_order 7 4 1 8 (by decide)
      ⟨by decide, by decide, by decide⟩ (by decide) (by decide) (by decide)⟩

/-- **C8**: determinism of `estimate_factor` — two runs with the same
parameters whose oracles return the same sample at every attempt produce
the same result (the same factor pair and the same attempt count). -/
theorem estimate_factor_deterministic (N a m max_attempts : Nat)
    (o1 o2 : Nat → List Bool) (h : ∀ i, o1 i = o2 i) :
    estimate_factor N a m max_attempts o1 =
      estimate_factor N a m max_attempts o2 := by
  rw [funext h]

/-- Witness for `estimate_factor_deterministic`: two syntactically
different oracles returning the same fixed sample. -/
theorem estimate_factor_deterministic_witness :
    (∀ i : Nat, (fun _ : Nat => [true, false, false]) i =
        (fun j : Nat => [true, false, false] ++ List.replicate (j - j) true) i) ∧
      estimate_factor 15 7 8 2 (fun _ => [true, false, false]) =
        estimate_factor 15 7 8 2
          (fun j => [true, false, false] ++ List.replicate (j - j) true) :=
  ⟨fun i => by simp,
    estimate_factor_deterministic 15 7 8 2 _ _ (fun i => by simp)⟩

/-- **C9**: the result of `shor_qpe` is independent of the caller-supplied
`k` — the body overwrites it with the literal 12 — so any two `k` values
give the same computation and the same guesses on the same oracle
samples. -/
theorem shor_qpe_independent_of_k (k1 k2 : Nat) (oracle : Nat → List Bool)
    (fuel : Nat) : shor_qpe k1 oracle fuel = shor_qpe k2 oracle fuel := rfl

/-- **C10**: every element of `guesses` is `gcd(_, 15)`, hence a positive
divisor of 15; the divisibility test `N % guess == 0` of the acceptance
check is therefore always true on members of `guesses`, and the acceptance
flag coincides with testing `guess ∉ [1, N]` alone. -/
theorem shor_attempt_guesses_invariant (sample : List Bool) :
    (∀ g ∈ (shor_attempt 15 7 sample).1, 0 < g ∧ g ∣ 15 ∧ 15 % g = 0) ∧
      (shor_attempt 15 7 sample).2 =
        (shor_attempt 15 7 sample).1.any fun g => !(g == 1 || g == 15) := by
  have hdvd := shor_attempt_guesses_dvd 15 7 sample
  refine ⟨fun g hg =>
    ⟨shor_attempt_guesses_pos 15 7 (by norm_num) sample g hg, hdvd g hg,
      Nat.mod_eq_zero_of_dvd (hdvd g hg)⟩, ?_⟩
  have habs : ∀ g, g ∣ 15 →
      (!(g == 1 || g == 15) && 15 % g == 0) = (!(g == 1 || g == 15)) := by
    intro g hgd
    have hmod : (15 % g == 0) = true := by
      simp [Nat.mod_eq_zero_of_dvd hgd]
    rw [hmod, Bool.and_true]
  rw [shor_attempt_snd, shor_attempt_fst 15 7]
  simp only [List.any_cons, List.any_nil, Bool.or_false]
  rw [habs _ (Nat.gcd_dvd_right _ _), habs _ (Nat.gcd_dvd_right _ _)]

end ShorQPE
